import Mathlib

/-!
Shallow embedding of the sflashy core (`flashDevice` and `progressWriter` from
`main.go`, the interface-based variant taking `source io.Reader`,
`dest io.Writer`, `userInput io.Reader`, `termOut io.Writer`).

Modelling choices:
* byte streams are `List Nat`; a source readable stream is a list of chunks
  (one per successful `Read` call) followed by an end event that is either
  end-of-input (`srcOk = true`) or a read fault (`srcOk = false`);
* the destination writer is modelled by its accumulated content plus an
  optional fault point `failAfter`: a `Write` that would push the content past
  `failAfter` bytes accepts only the fitting prefix and reports an error
  (`none` means writes never fail);
* the message output (`termOut`) is the accumulated `String` of everything the
  code `Fprint`s to it; `fmt.Fprintln` appends a trailing `"\n"`;
* `int64` counters are modelled as `Int` (no realistic byte count approaches
  `2^63`, so wraparound is not modelled);
* the `%.2f` float rendering of the gigabyte figure is modelled by exact
  rational rounding to hundredths; no theorem below depends on those digits.
-/

namespace Sflashy

/-- ANSI color constants from the source. -/
def ColorRed : String := "\x1b[31m"

/-- ANSI green. -/
def ColorGreen : String := "\x1b[32m"

/-- ANSI yellow. -/
def ColorYellow : String := "\x1b[33m"

/-- ANSI reset. -/
def ColorReset : String := "\x1b[0m"

/-- Does the second character list start with the first? -/
def segAt : List Char → List Char → Bool
  | [], _ => true
  | _ :: _, [] => false
  | a :: as, b :: bs => a == b && segAt as bs

/-- Does `sub` occur as a contiguous segment of the list? -/
def hasSeg (sub : List Char) : List Char → Bool
  | [] => segAt sub []
  | c :: cs => segAt sub (c :: cs) || hasSeg sub cs

/-- `sub` occurs as a contiguous substring of `s` (Go `strings.Contains s sub`). -/
def strHasSub (s sub : String) : Bool :=
  hasSeg sub.data s.data

/-- Is the character present in the list? -/
def charIn (c : Char) : List Char → Bool
  | [] => false
  | d :: ds => d == c || charIn c ds

/-- Go `unicode.IsSpace`: the Unicode White_Space code points. -/
def goIsSpace (c : Char) : Bool :=
  c == ' ' || c == '\t' || c == '\n' || c == '\x0b' || c == '\x0c' || c == '\r' ||
  c == '\x85' || c == '\u00A0' || c == '\u1680' ||
  ('\u2000' ≤ c && c ≤ '\u200A') || c == '\u2028' || c == '\u2029' ||
  c == '\u202F' || c == '\u205F' || c == '\u3000'

/-- `bufio.Reader.ReadString('\n')`: everything up to and including the first
newline, or the whole remaining input when end-of-input comes first (the source
ignores the returned error). -/
def takeLine : List Char → List Char
  | [] => []
  | c :: cs => if c == '\n' then [c] else c :: takeLine cs

/-- Go `strings.TrimSpace`: drop leading and trailing white space. -/
def goTrimSpace (l : List Char) : List Char :=
  ((l.dropWhile goIsSpace).reverse.dropWhile goIsSpace).reverse

/-- The normalized confirmation answer `flashDevice` computes from the
user-input stream: one line read, then trimmed. -/
def goResponse (userInput : String) : String :=
  ⟨goTrimSpace (takeLine userInput.data)⟩

/-- Decimal digit character. -/
def digitChar (n : Nat) : Char :=
  match n % 10 with
  | 0 => '0'
  | 1 => '1'
  | 2 => '2'
  | 3 => '3'
  | 4 => '4'
  | 5 => '5'
  | 6 => '6'
  | 7 => '7'
  | 8 => '8'
  | _ => '9'

/-- Fuelled decimal rendering of a natural number. -/
def natDigitsAux : Nat → Nat → List Char
  | 0, _ => []
  | fuel + 1, n => if n < 10 then [digitChar n] else natDigitsAux fuel (n / 10) ++ [digitChar (n % 10)]

/-- Decimal rendering of a natural number. -/
def natStr (n : Nat) : String :=
  ⟨natDigitsAux (n + 1) n⟩

/-- Models the source's `%.2f` rendering of `float64(total)/(1024*1024*1024)`:
the gigabyte figure to two decimal places (exact rational rounding stands in
for the float64 rounding; no theorem depends on the digits). -/
def gbFormat (total : Int) : String :=
  let h : Nat := ((total * 100 + 536870912) / 1073741824).toNat
  natStr (h / 100) ++ "." ++ (if h % 100 < 10 then "0" ++ natStr (h % 100) else natStr (h % 100))

/-- `progressWriter` state: running byte total and the total at which the last
progress line was shown (both `int64` in the source; the bound output stream
`out` is modelled by returning the emitted text). -/
structure progressWriter where
  total : Int
  lastShown : Int
  deriving DecidableEq

/-- The single overwritable progress line
`"\r%sWriting... %.2f GB copied%s"` with yellow color and reset. -/
def pwLine (total : Int) : String :=
  "\r" ++ ColorYellow ++ "Writing... " ++ gbFormat total ++ " GB copied" ++ ColorReset

/-- `progressWriter.Write(p)`: add `len(p)` to the total; if more than
2 MiB accumulated since the last shown total, emit one progress line and mark
the total as shown; always return `(len(p), nil)`. The result is
`((n, error), new state, emitted text)`. -/
def progressWriter.Write (pw : progressWriter) (p : List Nat) :
    (Nat × Option Unit) × progressWriter × String :=
  let n := p.length
  let total := pw.total + (n : Int)
  if total - pw.lastShown > 2 * 1024 * 1024 then
    ((n, none), ⟨total, total⟩, pwLine total)
  else
    ((n, none), ⟨total, pw.lastShown⟩, "")

/-- The error cases the copy loop can surface: a failed source read, a failed
destination write, or `io.ErrShortWrite`. -/
inductive CopyErr where
  | readFault
  | writeFault
  | shortWrite
  deriving DecidableEq

/-- One `Write` call on the modelled destination stream: append what fits
before the optional fault point; report `(accepted byte count, error?)`. -/
def destWrite (failAfter : Option Nat) (content p : List Nat) :
    List Nat × Nat × Bool :=
  match failAfter with
  | none => (content ++ p, p.length, false)
  | some k =>
    if content.length + p.length ≤ k then (content ++ p, p.length, false)
    else (content ++ p.take (k - content.length), k - content.length, true)

/-- The state threaded through the copy: the progress writer, the text written
to `termOut` so far, the destination content, and call counters for the
destination's `Write` and the source's `Read`. -/
structure CopySt where
  pw : progressWriter
  out : String
  destContent : List Nat
  destCalls : Nat
  srcReads : Nat

/-- `io.CopyBuffer(dest, io.TeeReader(source, pw), buf)`: per source read,
forward a nonempty chunk first to the progress writer (which never errors)
and then to the destination; stop on a destination error or short write; the
final read yields end-of-input (`srcOk`) or a read fault. -/
def copyLoop (failAfter : Option Nat) :
    List (List Nat) → Bool → CopySt → CopySt × Option CopyErr
  | [], srcOk, st =>
    ({ st with srcReads := st.srcReads + 1 },
      if srcOk then none else some CopyErr.readFault)
  | chunk :: rest, srcOk, st =>
    let st1 := { st with srcReads := st.srcReads + 1 }
    if chunk.isEmpty then
      copyLoop failAfter rest srcOk st1
    else
      let w := st1.pw.Write chunk
      let st2 := { st1 with pw := w.2.1, out := st1.out ++ w.2.2 }
      let d := destWrite failAfter st2.destContent chunk
      let st3 := { st2 with destContent := d.1, destCalls := st2.destCalls + 1 }
      if d.2.2 then (st3, some CopyErr.writeFault)
      else if d.2.1 != chunk.length then (st3, some CopyErr.shortWrite)
      else copyLoop failAfter rest srcOk st3

/-- What `flashDevice` leaves behind: the text written to `termOut`, the final
destination content, the destination `Write` and source `Read` call counts, and
the returned error (`none` is Go `nil`). -/
structure FlashOutcome where
  termOut : String
  destContent : List Nat
  destCalls : Nat
  srcReads : Nat
  err : Option CopyErr

/-- `flashDevice(source, dest, userInput, termOut)`: warn, prompt, read one
line and trim it; anything but `"y"`/`"Y"` cancels without touching source or
destination; otherwise copy through the tee with a fresh progress writer,
emitting a bare line break on error, or a line break plus the success message
on completion. -/
def flashDevice (chunks : List (List Nat)) (srcOk : Bool) (failAfter : Option Nat)
    (dest0 : List Nat) (userInput : String) : FlashOutcome :=
  let out0 := "Flashing image to device. This will erase all data on the device.\n" ++
    "Are you sure? [y/N]: "
  let response := goResponse userInput
  if response != "y" && response != "Y" then
    { termOut := out0 ++ "Operation cancelled.\n", destContent := dest0,
      destCalls := 0, srcReads := 0, err := none }
  else
    let out1 := out0 ++ "Starting flash operation...\n"
    let st0 : CopySt :=
      { pw := ⟨0, 0⟩, out := out1, destContent := dest0, destCalls := 0, srcReads := 0 }
    let r := copyLoop failAfter chunks srcOk st0
    match r.2 with
    | some e =>
      { termOut := r.1.out ++ "\n", destContent := r.1.destContent,
        destCalls := r.1.destCalls, srcReads := r.1.srcReads, err := some e }
    | none =>
      { termOut := r.1.out ++ "\n" ++
          (ColorGreen ++ "\nFlash completed successfully!" ++ ColorReset ++ "\n"),
        destContent := r.1.destContent, destCalls := r.1.destCalls,
        srcReads := r.1.srcReads, err := none }

/-- A sequence of `progressWriter.Write` observations starting from `pw`:
the final state together with the concatenated emitted text. -/
def pwRun (pw : progressWriter) : List (List Nat) → progressWriter × String
  | [] => (pw, "")
  | p :: ps =>
    let w := pw.Write p
    let r := pwRun w.2.1 ps
    (r.1, w.2.2 ++ r.2)

/-- Total number of bytes across a list of write chunks. -/
def sumLens (ps : List (List Nat)) : Nat :=
  (ps.map List.length).sum

/-- The copy state `flashDevice` starts from right after an affirmative
answer: fresh progress writer, the prompt and starting messages already on
`termOut`, the destination as given. -/
def initSt (dest0 : List Nat) : CopySt :=
  { pw := ⟨0, 0⟩,
    out := "Flashing image to device. This will erase all data on the device.\n" ++
      "Are you sure? [y/N]: " ++ "Starting flash operation...\n",
    destContent := dest0, destCalls := 0, srcReads := 0 }

/-! ### Helper lemmas -/

theorem strData_append (a b : String) : (a ++ b).data = a.data ++ b.data := by
  cases a; cases b; rfl

theorem str_append_empty (a : String) : a ++ "" = a := by
  cases a with
  | mk l => show String.mk (l ++ []) = String.mk l; rw [List.append_nil]

theorem str_append_assoc (a b c : String) : (a ++ b) ++ c = a ++ (b ++ c) := by
  cases a; cases b; cases c
  show String.mk _ = String.mk _
  rw [List.append_assoc]

theorem segAt_append (sub l b : List Char) (h : segAt sub l = true) :
    segAt sub (l ++ b) = true := by
  induction sub generalizing l with
  | nil => rfl
  | cons a as ih =>
    cases l with
    | nil => simp [segAt] at h
    | cons x xs =>
      simp only [segAt, Bool.and_eq_true] at h ⊢
      exact ⟨h.1, ih xs h.2⟩

theorem hasSeg_append_left (sub a b : List Char) (h : hasSeg sub a = true) :
    hasSeg sub (a ++ b) = true := by
  induction a with
  | nil =>
    cases sub with
    | nil => cases b <;> simp [hasSeg, segAt]
    | cons c cs => simp [hasSeg, segAt] at h
  | cons x xs ih =>
    simp only [hasSeg, Bool.or_eq_true, List.cons_append] at h ⊢
    rcases h with h | h
    · exact Or.inl (segAt_append _ _ _ h)
    · exact Or.inr (ih h)

theorem hasSeg_append_right (sub a b : List Char) (h : hasSeg sub b = true) :
    hasSeg sub (a ++ b) = true := by
  induction a with
  | nil => exact h
  | cons x xs ih =>
    simp only [hasSeg, Bool.or_eq_true, List.cons_append]
    exact Or.inr ih

theorem strHasSub_append_left (a b sub : String) (h : strHasSub a sub = true) :
    strHasSub (a ++ b) sub = true := by
  unfold strHasSub at h ⊢
  rw [strData_append]
  exact hasSeg_append_left _ _ _ h

theorem strHasSub_append_right (a b sub : String) (h : strHasSub b sub = true) :
    strHasSub (a ++ b) sub = true := by
  unfold strHasSub at h ⊢
  rw [strData_append]
  exact hasSeg_append_right _ _ _ h

theorem charIn_append (c : Char) (a b : List Char) :
    charIn c (a ++ b) = (charIn c a || charIn c b) := by
  induction a with
  | nil => simp [charIn]
  | cons x xs ih => simp [charIn, ih, Bool.or_assoc]

theorem charIn_of_segAt (c : Char) (sub l : List Char) (hs : segAt sub l = true)
    (hc : charIn c sub = true) : charIn c l = true := by
  induction sub generalizing l with
  | nil => simp [charIn] at hc
  | cons a as ih =>
    cases l with
    | nil => simp [segAt] at hs
    | cons x xs =>
      simp only [segAt, Bool.and_eq_true] at hs
      simp only [charIn, Bool.or_eq_true] at hc ⊢
      rcases hc with h1 | h2
      · left
        have hax : a = x := by simpa using hs.1
        have hac : a = c := by simpa using h1
        simp [← hax, hac]
      · exact Or.inr (ih xs hs.2 h2)

theorem charIn_of_hasSeg (c : Char) (sub l : List Char) (h : hasSeg sub l = true)
    (hc : charIn c sub = true) : charIn c l = true := by
  induction l with
  | nil =>
    cases sub with
    | nil => simp [charIn] at hc
    | cons a as => simp [hasSeg, segAt] at h
  | cons x xs ih =>
    simp only [hasSeg, Bool.or_eq_true] at h
    rcases h with h | h
    · exact charIn_of_segAt c sub (x :: xs) h hc
    · simp only [charIn, Bool.or_eq_true]
      exact Or.inr (ih h)

theorem strHasSub_eq_false (c : Char) (s sub : String) (hc : charIn c sub.data = true)
    (hs : charIn c s.data = false) : strHasSub s sub = false := by
  cases h : strHasSub s sub with
  | false => rfl
  | true =>
    have := charIn_of_hasSeg c sub.data s.data h hc
    rw [hs] at this
    exact absurd this (by simp)

theorem digitChar_ne_bang (n : Nat) : (digitChar n == '!') = false := by
  unfold digitChar
  split <;> rfl

theorem natDigitsAux_no_bang (fuel n : Nat) : charIn '!' (natDigitsAux fuel n) = false := by
  induction fuel generalizing n with
  | zero => rfl
  | succ f ih =>
    by_cases h : n < 10
    · simp [natDigitsAux, h, charIn, digitChar_ne_bang]
    · simp [natDigitsAux, h, charIn_append, charIn, digitChar_ne_bang, ih]

theorem natStr_no_bang (n : Nat) : charIn '!' (natStr n).data = false :=
  natDigitsAux_no_bang (n + 1) n

theorem gbFormat_no_bang (t : Int) : charIn '!' (gbFormat t).data = false := by
  unfold gbFormat
  dsimp only
  by_cases h : ((t * 100 + 536870912) / 1073741824).toNat % 100 < 10 <;>
    simp [h, strData_append, charIn_append, charIn, natDigitsAux_no_bang, natStr]

theorem pwLine_no_bang (t : Int) : charIn '!' (pwLine t).data = false := by
  unfold pwLine
  rw [strData_append, strData_append, strData_append, strData_append, strData_append,
    charIn_append, charIn_append, charIn_append, charIn_append, charIn_append,
    gbFormat_no_bang]
  decide

theorem pwLine_head (t : Int) : (pwLine t).data.head? = some '\r' := by
  unfold pwLine
  rw [strData_append, strData_append, strData_append, strData_append, strData_append]
  rfl

/-- `Write` emits either nothing or the single progress line for the new total. -/
theorem Write_emission (pw : progressWriter) (p : List Nat) :
    (pw.Write p).2.2 = "" ∨ (pw.Write p).2.2 = pwLine (pw.total + p.length) := by
  unfold progressWriter.Write
  dsimp only
  split
  · exact Or.inr rfl
  · exact Or.inl rfl

theorem Write_no_bang (pw : progressWriter) (p : List Nat) :
    charIn '!' (pw.Write p).2.2.data = false := by
  rcases Write_emission pw p with h | h <;> rw [h]
  · rfl
  · exact pwLine_no_bang _

theorem Write_total (pw : progressWriter) (p : List Nat) :
    (pw.Write p).2.1.total = pw.total + p.length := by
  unfold progressWriter.Write
  dsimp only
  split <;> rfl

/-- A `Write` step preserves `0 ≤ lastShown ≤ total` and never decreases
`lastShown`. -/
theorem Write_inv (pw : progressWriter) (p : List Nat) (h0 : 0 ≤ pw.lastShown)
    (h1 : pw.lastShown ≤ pw.total) :
    0 ≤ (pw.Write p).2.1.lastShown ∧
    (pw.Write p).2.1.lastShown ≤ (pw.Write p).2.1.total ∧
    pw.lastShown ≤ (pw.Write p).2.1.lastShown := by
  unfold progressWriter.Write
  have hp : (0 : Int) ≤ (p.length : Int) := Int.natCast_nonneg _
  dsimp only
  split <;> simp <;> omega

theorem take_len_add (l m : List Nat) (n : Nat) :
    (l ++ m).take (l.length + n) = l ++ m.take n := by
  rw [List.take_append_eq_append_take, List.take_of_length_le (by omega)]
  congr 1
  congr 1
  omega

/-- A fault-free copy appends exactly the joined source chunks to the
destination and returns no error. -/
theorem copyLoop_ok (chunks : List (List Nat)) : ∀ st : CopySt, ∃ pw' mid dc sr,
    copyLoop none chunks true st =
      (⟨pw', st.out ++ mid, st.destContent ++ chunks.flatten, dc, sr⟩, none) := by
  induction chunks with
  | nil =>
    intro st
    refine ⟨st.pw, "", st.destCalls, st.srcReads + 1, ?_⟩
    simp [copyLoop, str_append_empty]
  | cons c rest ih =>
    intro st
    by_cases hc : c.isEmpty = true
    · have hcnil : c = [] := List.isEmpty_iff.mp hc
      obtain ⟨pw', mid, dc, sr, h⟩ := ih { st with srcReads := st.srcReads + 1 }
      exact ⟨pw', mid, dc, sr, by simp [copyLoop, hc, hcnil] at h ⊢; exact h⟩
    · obtain ⟨pw', mid, dc, sr, h⟩ := ih
        { pw := (st.pw.Write c).2.1,
          out := st.out ++ (st.pw.Write c).2.2,
          destContent := st.destContent ++ c,
          destCalls := st.destCalls + 1,
          srcReads := st.srcReads + 1 }
      refine ⟨pw', (st.pw.Write c).2.2 ++ mid, dc, sr, ?_⟩
      simp only [copyLoop, hc, if_false, destWrite] at h ⊢
      simp only [bne_self_eq_false, if_false, Bool.false_eq_true] at h ⊢
      rw [h]
      simp [str_append_assoc, List.append_assoc]

/-- Whatever the fault behavior, the destination content after the copy is the
prior content extended by a prefix of the joined source chunks. -/
theorem copyLoop_prefix (fa : Option Nat) (chunks : List (List Nat)) (ok : Bool) :
    ∀ st : CopySt, ∃ N,
      (copyLoop fa chunks ok st).1.destContent = st.destContent ++ (chunks.flatten).take N := by
  induction chunks with
  | nil => intro st; exact ⟨0, by simp [copyLoop]⟩
  | cons c rest ih =>
    intro st
    by_cases hc : c.isEmpty = true
    · have hcnil : c = [] := List.isEmpty_iff.mp hc
      obtain ⟨N, h⟩ := ih { st with srcReads := st.srcReads + 1 }
      exact ⟨N, by simp [copyLoop, hc, hcnil] at h ⊢; exact h⟩
    · simp only [copyLoop, hc, if_false]
      rcases fa with _ | k
      · simp only [destWrite]
        simp only [bne_self_eq_false, Bool.false_eq_true, if_false]
        obtain ⟨N, h⟩ := ih
          { pw := (st.pw.Write c).2.1,
            out := st.out ++ (st.pw.Write c).2.2,
            destContent := st.destContent ++ c,
            destCalls := st.destCalls + 1,
            srcReads := st.srcReads + 1 }
        refine ⟨c.length + N, ?_⟩
        rw [h]
        simp [List.append_assoc, take_len_add]
      · simp only [destWrite]
        by_cases hk : st.destContent.length + c.length ≤ k
        · simp only [hk, if_true, bne_self_eq_false, Bool.false_eq_true, if_false]
          obtain ⟨N, h⟩ := ih
            { pw := (st.pw.Write c).2.1,
              out := st.out ++ (st.pw.Write c).2.2,
              destContent := st.destContent ++ c,
              destCalls := st.destCalls + 1,
              srcReads := st.srcReads + 1 }
          refine ⟨c.length + N, ?_⟩
          rw [h]
          simp [List.append_assoc, take_len_add]
        · simp only [hk, if_false]
          refine ⟨k - st.destContent.length, ?_⟩
          have hle : k - st.destContent.length ≤ c.length := by omega
          simp [List.take_append_of_le_length hle]

/-- The copy only appends progress lines and never writes a `'!'` to the
message output. -/
theorem copyLoop_no_bang (fa : Option Nat) (chunks : List (List Nat)) (ok : Bool) :
    ∀ st : CopySt, charIn '!' st.out.data = false →
      charIn '!' ((copyLoop fa chunks ok st).1.out).data = false := by
  induction chunks with
  | nil => intro st h; simpa [copyLoop] using h
  | cons c rest ih =>
    intro st h
    by_cases hc : c.isEmpty = true
    · simpa [copyLoop, hc] using ih { st with srcReads := st.srcReads + 1 } h
    · have h2 : charIn '!' (st.out ++ (st.pw.Write c).2.2).data = false := by
        rw [strData_append, charIn_append, h, Write_no_bang]
        rfl
      simp only [copyLoop, hc, Bool.false_eq_true, if_false]
      split
      · exact h2
      · split
        · exact h2
        · exact ih _ h2

theorem str_empty_append (a : String) : "" ++ a = a := by
  cases a
  rfl

theorem pwLine_has_writing (t : Int) : strHasSub (pwLine t) "Writing..." = true := by
  unfold pwLine
  apply strHasSub_append_left
  apply strHasSub_append_left
  apply strHasSub_append_left
  decide

/-- `Write` below the reporting threshold: total advances, nothing is shown. -/
theorem Write_quiet (pw : progressWriter) (p : List Nat)
    (h : ¬ pw.total + (p.length : Int) - pw.lastShown > 2 * 1024 * 1024) :
    pw.Write p = ((p.length, none), ⟨pw.total + p.length, pw.lastShown⟩, "") := by
  unfold progressWriter.Write
  dsimp only
  rw [if_neg h]

/-- `Write` past the reporting threshold: one line is emitted and the shown
marker jumps to the new total. -/
theorem Write_loud (pw : progressWriter) (p : List Nat)
    (h : pw.total + (p.length : Int) - pw.lastShown > 2 * 1024 * 1024) :
    pw.Write p = ((p.length, none),
      ⟨pw.total + p.length, pw.total + p.length⟩, pwLine (pw.total + p.length)) := by
  unfold progressWriter.Write
  dsimp only
  rw [if_pos h]

/-- Observing at most the threshold in total, starting fresh, never emits. -/
theorem pwRun_quiet (ps : List (List Nat)) : ∀ t : Nat,
    (t : Int) + (sumLens ps : Int) ≤ 2 * 1024 * 1024 →
    pwRun ⟨(t : Int), 0⟩ ps = (⟨((t + sumLens ps : Nat) : Int), 0⟩, "") := by
  induction ps with
  | nil =>
    intro t h
    simp [pwRun, sumLens]
  | cons p ps ih =>
    intro t h
    have hlen : sumLens (p :: ps) = p.length + sumLens ps := by simp [sumLens]
    rw [hlen] at h
    push_cast at h
    have hq : ¬ ((⟨(t : Int), 0⟩ : progressWriter).total + (p.length : Int) -
        (⟨(t : Int), 0⟩ : progressWriter).lastShown > 2 * 1024 * 1024) := by
      dsimp only
      omega
    have hcast : ((t : Int) + (p.length : Int)) = (((t + p.length : Nat)) : Int) := by
      push_cast
      ring
    have ihh := ih (t + p.length) (by push_cast; omega)
    simp only [pwRun]
    rw [Write_quiet _ _ hq]
    dsimp only
    rw [hcast, ihh]
    dsimp only
    rw [str_empty_append, hlen]
    have : t + p.length + sumLens ps = t + (p.length + sumLens ps) := by omega
    rw [this]

/-- Observing more than the threshold in total, starting fresh, emits at least
one `Writing...` line. -/
theorem pwRun_loud (ps : List (List Nat)) : ∀ t : Nat,
    (t : Int) ≤ 2 * 1024 * 1024 →
    (t : Int) + (sumLens ps : Int) > 2 * 1024 * 1024 →
    strHasSub (pwRun ⟨(t : Int), 0⟩ ps).2 "Writing..." = true := by
  induction ps with
  | nil =>
    intro t h0 h
    simp [sumLens] at h
    omega
  | cons p ps ih =>
    intro t h0 h
    have hlen : sumLens (p :: ps) = p.length + sumLens ps := by simp [sumLens]
    rw [hlen] at h
    push_cast at h
    by_cases hq : ((⟨(t : Int), 0⟩ : progressWriter).total + (p.length : Int) -
        (⟨(t : Int), 0⟩ : progressWriter).lastShown > 2 * 1024 * 1024)
    · simp only [pwRun]
      rw [Write_loud _ _ hq]
      dsimp only
      exact strHasSub_append_left _ _ _ (pwLine_has_writing _)
    · have hle : (t : Int) + (p.length : Int) ≤ 2 * 1024 * 1024 := by
        dsimp only at hq
        omega
      have hcast : ((t : Int) + (p.length : Int)) = (((t + p.length : Nat)) : Int) := by
        push_cast
        ring
      simp only [pwRun]
      rw [Write_quiet _ _ hq]
      dsimp only
      rw [hcast, str_empty_append]
      exact ih (t + p.length) (by push_cast; omega) (by push_cast; omega)

/-- The `0 ≤ lastShown ≤ total` invariant holds after any run from a state
satisfying it. -/
theorem pwRun_inv (ps : List (List Nat)) : ∀ pw : progressWriter,
    0 ≤ pw.lastShown → pw.lastShown ≤ pw.total →
    0 ≤ (pwRun pw ps).1.lastShown ∧ (pwRun pw ps).1.lastShown ≤ (pwRun pw ps).1.total := by
  induction ps with
  | nil =>
    intro pw h0 h1
    exact ⟨h0, h1⟩
  | cons p ps ih =>
    intro pw h0 h1
    have step := Write_inv pw p h0 h1
    simp only [pwRun]
    exact ih _ step.1 step.2.1

theorem flash_cond_false (input : String)
    (h : goResponse input = "y" ∨ goResponse input = "Y") :
    (goResponse input != "y" && goResponse input != "Y") = false := by
  rcases h with h | h <;> simp [h]

theorem flash_cond_true (input : String) (h1 : goResponse input ≠ "y")
    (h2 : goResponse input ≠ "Y") :
    (goResponse input != "y" && goResponse input != "Y") = true := by
  simp [bne_iff_ne, h1, h2]

/-- Any non-affirmative answer takes the cancellation branch: fixed output,
destination and source untouched, `nil` returned. -/
theorem flash_refused (chunks : List (List Nat)) (srcOk : Bool) (failAfter : Option Nat)
    (dest0 : List Nat) (input : String) (h1 : goResponse input ≠ "y")
    (h2 : goResponse input ≠ "Y") :
    flashDevice chunks srcOk failAfter dest0 input =
      { termOut := "Flashing image to device. This will erase all data on the device.\n" ++
          "Are you sure? [y/N]: " ++ "Operation cancelled.\n",
        destContent := dest0, destCalls := 0, srcReads := 0, err := none } := by
  unfold flashDevice
  dsimp only
  rw [if_pos (flash_cond_true input h1 h2)]

/-- An affirmative answer with a fault-free source and destination: full copy,
success message, `nil` returned. -/
theorem flash_affirmed (chunks : List (List Nat)) (dest0 : List Nat) (input : String)
    (h : goResponse input = "y" ∨ goResponse input = "Y") :
    ∃ mid dc sr,
      flashDevice chunks true none dest0 input =
        { termOut := (("Flashing image to device. This will erase all data on the device.\n" ++
              "Are you sure? [y/N]: " ++
              "Starting flash operation...\n") ++ mid) ++ "\n" ++
            (ColorGreen ++ "\nFlash completed successfully!" ++ ColorReset ++ "\n"),
          destContent := dest0 ++ chunks.flatten, destCalls := dc, srcReads := sr,
          err := none } := by
  obtain ⟨pw', mid, dc, sr, hcl⟩ := copyLoop_ok chunks
    { pw := ⟨0, 0⟩,
      out := "Flashing image to device. This will erase all data on the device.\n" ++
        "Are you sure? [y/N]: " ++ "Starting flash operation...\n",
      destContent := dest0, destCalls := 0, srcReads := 0 }
  refine ⟨mid, dc, sr, ?_⟩
  unfold flashDevice
  dsimp only
  rw [if_neg (by rw [flash_cond_false input h]; simp)]
  rw [hcl]

/-- After an affirmative answer, `flashDevice` is the copy from `initSt`
followed by either the error epilogue or the success epilogue. -/
theorem flash_match (chunks : List (List Nat)) (srcOk : Bool) (fa : Option Nat)
    (dest0 : List Nat) (input : String)
    (h : goResponse input = "y" ∨ goResponse input = "Y") :
    flashDevice chunks srcOk fa dest0 input =
      (match (copyLoop fa chunks srcOk (initSt dest0)).2 with
       | some e =>
         { termOut := (copyLoop fa chunks srcOk (initSt dest0)).1.out ++ "\n",
           destContent := (copyLoop fa chunks srcOk (initSt dest0)).1.destContent,
           destCalls := (copyLoop fa chunks srcOk (initSt dest0)).1.destCalls,
           srcReads := (copyLoop fa chunks srcOk (initSt dest0)).1.srcReads,
           err := some e }
       | none =>
         { termOut := (copyLoop fa chunks srcOk (initSt dest0)).1.out ++ "\n" ++
             (ColorGreen ++ "\nFlash completed successfully!" ++ ColorReset ++ "\n"),
           destContent := (copyLoop fa chunks srcOk (initSt dest0)).1.destContent,
           destCalls := (copyLoop fa chunks srcOk (initSt dest0)).1.destCalls,
           srcReads := (copyLoop fa chunks srcOk (initSt dest0)).1.srcReads,
           err := none }) := by
  unfold flashDevice
  dsimp only
  rw [if_neg (by rw [flash_cond_false input h]; simp)]
  rfl

/-! ### Claim theorems -/

/-- C6: for every byte slice `p`, `progressWriter.Write p` returns the pair
`(len(p), nil)` — it never returns an error — and increases the running total
by exactly `len(p)`. -/
theorem flashy_C6 (pw : progressWriter) (p : List Nat) :
    (pw.Write p).1 = (p.length, none) ∧
    (pw.Write p).2.1.total = pw.total + p.length := by
  constructor
  · unfold progressWriter.Write
    dsimp only
    split <;> rfl
  · exact Write_total pw p

/-- C10: a single `Write` call emits at most one progress line, however large
the chunk: the emitted text is either empty (marker unchanged) or exactly one
progress line with `lastShown` jumping directly to the new total. -/
theorem flashy_C10 (pw : progressWriter) (p : List Nat) :
    ((pw.Write p).2.2 = "" ∧ (pw.Write p).2.1.lastShown = pw.lastShown) ∨
    ((pw.Write p).2.2 = pwLine (pw.total + p.length) ∧
      (pw.Write p).2.1.lastShown = pw.total + p.length) := by
  by_cases hq : pw.total + (p.length : Int) - pw.lastShown > 2 * 1024 * 1024
  · right
    rw [Write_loud _ _ hq]
    exact ⟨rfl, rfl⟩
  · left
    rw [Write_quiet _ _ hq]
    exact ⟨rfl, rfl⟩

/-- C5: across any sequence of `Write` observations from the initial state
(total = 0, lastShown = 0), the `lastShown` marker stays nonnegative, never
exceeds the running total, and never decreases at the next observation. -/
theorem flashy_C5 (ps : List (List Nat)) (p : List Nat) :
    0 ≤ (pwRun ⟨0, 0⟩ ps).1.lastShown ∧
    (pwRun ⟨0, 0⟩ ps).1.lastShown ≤ (pwRun ⟨0, 0⟩ ps).1.total ∧
    (pwRun ⟨0, 0⟩ ps).1.lastShown ≤ (((pwRun ⟨0, 0⟩ ps).1).Write p).2.1.lastShown := by
  have inv := pwRun_inv ps ⟨0, 0⟩ le_rfl le_rfl
  exact ⟨inv.1, inv.2, (Write_inv _ p inv.1 inv.2).2.2⟩

/-- C4: if the observed total stays at or below the 2 MiB threshold no progress
line is ever emitted; a `Write` pushing `total - lastShown` past the threshold
emits a line prefixed by a carriage return containing `Writing...` and sets
`lastShown` to the new total; and observing more than the threshold from the
initial state emits at least one `Writing...` line. -/
theorem flashy_C4 (ps : List (List Nat)) (pw : progressWriter) (p : List Nat) :
    (sumLens ps ≤ 2 * 1024 * 1024 → (pwRun ⟨0, 0⟩ ps).2 = "") ∧
    (pw.total + (p.length : Int) - pw.lastShown > 2 * 1024 * 1024 →
      (pw.Write p).2.2.data.head? = some '\r' ∧
      strHasSub (pw.Write p).2.2 "Writing..." = true ∧
      (pw.Write p).2.1.lastShown = pw.total + p.length) ∧
    (sumLens ps > 2 * 1024 * 1024 → strHasSub (pwRun ⟨0, 0⟩ ps).2 "Writing..." = true) := by
  refine ⟨?_, ?_, ?_⟩
  · intro h
    have h0 := pwRun_quiet ps 0 (by push_cast; omega)
    simp only [Nat.cast_zero] at h0
    rw [h0]
  · intro h
    rw [Write_loud _ _ h]
    exact ⟨pwLine_head _, pwLine_has_writing _, rfl⟩
  · intro h
    have h0 := pwRun_loud ps 0 (by norm_num) (by push_cast; omega)
    simp only [Nat.cast_zero] at h0
    exact h0

/-- Witness for C4: 1024 observed bytes emit nothing; a single 3 MiB chunk
emits a `Writing...` line and jumps the marker to the new total. -/
theorem flashy_C4_witness :
    (pwRun ⟨0, 0⟩ [List.replicate 1024 0]).2 = "" ∧
    strHasSub (pwRun ⟨0, 0⟩ [List.replicate 3145728 0]).2 "Writing..." = true ∧
    ((⟨0, 0⟩ : progressWriter).Write (List.replicate 3145728 0)).2.1.lastShown =
      (0 : Int) + ((List.replicate 3145728 (0 : Nat)).length : Int) := by
  refine ⟨?_, ?_, ?_⟩
  · exact (flashy_C4 [List.replicate 1024 0] ⟨0, 0⟩ []).1 (by
      simp only [sumLens, List.map_cons, List.map_nil, List.length_replicate,
        List.sum_cons, List.sum_nil]
      norm_num)
  · exact (flashy_C4 [List.replicate 3145728 0] ⟨0, 0⟩ []).2.2 (by
      simp only [sumLens, List.map_cons, List.map_nil, List.length_replicate,
        List.sum_cons, List.sum_nil]
      norm_num)
  · exact ((flashy_C4 [] ⟨0, 0⟩ (List.replicate 3145728 0)).2.1 (by
      simp only [List.length_replicate]
      norm_num)).2.2

/-- C1: with an affirmative trimmed confirmation line, a fault-free source and
destination, `flashDevice` succeeds, the destination ends with exactly the
source bytes (any chunking, including the empty source), and the message
output contains `Flash completed successfully!`. -/
theorem flashy_C1 (chunks : List (List Nat)) (input : String)
    (h : goResponse input = "y" ∨ goResponse input = "Y") :
    (flashDevice chunks true none [] input).err = none ∧
    (flashDevice chunks true none [] input).destContent = chunks.flatten ∧
    strHasSub (flashDevice chunks true none [] input).termOut
      "Flash completed successfully!" = true := by
  obtain ⟨mid, dc, sr, hf⟩ := flash_affirmed chunks [] input h
  rw [hf]
  refine ⟨rfl, by simp, ?_⟩
  exact strHasSub_append_right _ _ _ (by decide)

/-- Witness for C1: source `[1,2,3]` in one chunk, confirmation `"y\n"`. -/
theorem flashy_C1_witness :
    goResponse "y\n" = "y" ∧
    (flashDevice [[1, 2, 3]] true none [] "y\n").err = none ∧
    (flashDevice [[1, 2, 3]] true none [] "y\n").destContent = List.flatten [[1, 2, 3]] ∧
    strHasSub (flashDevice [[1, 2, 3]] true none [] "y\n").termOut
      "Flash completed successfully!" = true :=
  ⟨by decide,
    (flashy_C1 [[1, 2, 3]] "y\n" (Or.inl (by decide))).1,
    (flashy_C1 [[1, 2, 3]] "y\n" (Or.inl (by decide))).2.1,
    (flashy_C1 [[1, 2, 3]] "y\n" (Or.inl (by decide))).2.2⟩

/-- C2: any confirmation input whose first line does not trim to `y` or `Y`
cancels: `flashDevice` returns success, the destination receives zero `Write`
calls, and the output contains `Operation cancelled.`. -/
theorem flashy_C2 (chunks : List (List Nat)) (srcOk : Bool) (failAfter : Option Nat)
    (dest0 : List Nat) (input : String)
    (h1 : goResponse input ≠ "y") (h2 : goResponse input ≠ "Y") :
    (flashDevice chunks srcOk failAfter dest0 input).err = none ∧
    (flashDevice chunks srcOk failAfter dest0 input).destCalls = 0 ∧
    strHasSub (flashDevice chunks srcOk failAfter dest0 input).termOut
      "Operation cancelled." = true := by
  rw [flash_refused chunks srcOk failAfter dest0 input h1 h2]
  refine ⟨rfl, rfl, ?_⟩
  dsimp only
  decide

/-- Witness for C2: confirmation `"n\n"`. -/
theorem flashy_C2_witness :
    (flashDevice [[1, 2, 3]] true none [] "n\n").err = none ∧
    (flashDevice [[1, 2, 3]] true none [] "n\n").destCalls = 0 ∧
    strHasSub (flashDevice [[1, 2, 3]] true none [] "n\n").termOut
      "Operation cancelled." = true :=
  flashy_C2 [[1, 2, 3]] true none [] "n\n" (by decide) (by decide)

/-- C3: after affirmation, if the copy returns an error then `flashDevice`
emits a bare line break, the destination holds exactly the prefix written
before the fault, and no success message appears in the output. -/
theorem flashy_C3 (chunks : List (List Nat)) (srcOk : Bool) (failAfter : Option Nat)
    (dest0 : List Nat) (input : String) (e : CopyErr)
    (haff : goResponse input = "y" ∨ goResponse input = "Y")
    (herr : (flashDevice chunks srcOk failAfter dest0 input).err = some e) :
    (∃ s, (flashDevice chunks srcOk failAfter dest0 input).termOut = s ++ "\n") ∧
    (∃ N, (flashDevice chunks srcOk failAfter dest0 input).destContent =
      dest0 ++ (chunks.flatten).take N) ∧
    strHasSub (flashDevice chunks srcOk failAfter dest0 input).termOut
      "Flash completed successfully!" = false := by
  cases hr : (copyLoop failAfter chunks srcOk (initSt dest0)).2 with
  | none =>
    rw [flash_match chunks srcOk failAfter dest0 input haff, hr] at herr
    simp at herr
  | some e2 =>
    rw [flash_match chunks srcOk failAfter dest0 input haff, hr]
    dsimp only
    refine ⟨⟨(copyLoop failAfter chunks srcOk (initSt dest0)).1.out, rfl⟩, ?_, ?_⟩
    · obtain ⟨N, hN⟩ := copyLoop_prefix failAfter chunks srcOk (initSt dest0)
      exact ⟨N, hN⟩
    · refine strHasSub_eq_false '!' _ _ (by decide) ?_
      rw [strData_append, charIn_append,
        copyLoop_no_bang failAfter chunks srcOk (initSt dest0)
          (by dsimp only [initSt]; decide)]
      rfl

/-- Witness for C3: the source faults right after delivering `[1,2]`. -/
theorem flashy_C3_witness :
    goResponse "y\n" = "y" ∧
    (flashDevice [[1, 2]] false none [] "y\n").err = some CopyErr.readFault ∧
    (∃ s, (flashDevice [[1, 2]] false none [] "y\n").termOut = s ++ "\n") ∧
    (∃ N, (flashDevice [[1, 2]] false none [] "y\n").destContent =
      [] ++ (List.flatten [[1, 2]]).take N) ∧
    strHasSub (flashDevice [[1, 2]] false none [] "y\n").termOut
      "Flash completed successfully!" = false := by
  have h := flashy_C3 [[1, 2]] false none [] "y\n" CopyErr.readFault
    (Or.inl (by decide)) (by decide)
  exact ⟨by decide, by decide, h.1, h.2.1, h.2.2⟩

/-- C7: a confirmation input of `"y"` or `"Y"` with no trailing line
terminator is still read as one line, affirmed, and the copy proceeds to
completion. -/
theorem flashy_C7 (chunks : List (List Nat)) (dest0 : List Nat) :
    ((flashDevice chunks true none dest0 "y").err = none ∧
      (flashDevice chunks true none dest0 "y").destContent = dest0 ++ chunks.flatten ∧
      strHasSub (flashDevice chunks true none dest0 "y").termOut
        "Starting flash operation..." = true) ∧
    ((flashDevice chunks true none dest0 "Y").err = none ∧
      (flashDevice chunks true none dest0 "Y").destContent = dest0 ++ chunks.flatten ∧
      strHasSub (flashDevice chunks true none dest0 "Y").termOut
        "Starting flash operation..." = true) := by
  constructor
  · obtain ⟨mid, dc, sr, hf⟩ := flash_affirmed chunks dest0 "y" (Or.inl (by decide))
    rw [hf]
    refine ⟨rfl, rfl, ?_⟩
    apply strHasSub_append_left
    apply strHasSub_append_left
    apply strHasSub_append_left
    decide
  · obtain ⟨mid, dc, sr, hf⟩ := flash_affirmed chunks dest0 "Y" (Or.inr (by decide))
    rw [hf]
    refine ⟨rfl, rfl, ?_⟩
    apply strHasSub_append_left
    apply strHasSub_append_left
    apply strHasSub_append_left
    decide

/-- C8: refusal is idempotent: two refused runs in sequence on the same
destination make zero destination `Write` calls and leave its content as it
started. -/
theorem flashy_C8 (s1 s2 : List (List Nat)) (ok1 ok2 : Bool) (fa1 fa2 : Option Nat)
    (dest0 : List Nat) (i1 i2 : String)
    (h1 : goResponse i1 ≠ "y") (h2 : goResponse i1 ≠ "Y")
    (h3 : goResponse i2 ≠ "y") (h4 : goResponse i2 ≠ "Y") :
    (flashDevice s1 ok1 fa1 dest0 i1).destCalls = 0 ∧
    (flashDevice s2 ok2 fa2 (flashDevice s1 ok1 fa1 dest0 i1).destContent i2).destCalls = 0 ∧
    (flashDevice s2 ok2 fa2 (flashDevice s1 ok1 fa1 dest0 i1).destContent i2).destContent =
      dest0 := by
  rw [flash_refused s1 ok1 fa1 dest0 i1 h1 h2]
  dsimp only
  rw [flash_refused s2 ok2 fa2 dest0 i2 h3 h4]
  exact ⟨rfl, rfl, rfl⟩

/-- Witness for C8: refuse with `"n\n"` then with empty input. -/
theorem flashy_C8_witness :
    (flashDevice [[9]] true none [7] "n\n").destCalls = 0 ∧
    (flashDevice [] true none (flashDevice [[9]] true none [7] "n\n").destContent "").destCalls = 0 ∧
    (flashDevice [] true none (flashDevice [[9]] true none [7] "n\n").destContent "").destContent =
      [7] :=
  flashy_C8 [[9]] [] true true none none [7] "n\n" ""
    (by decide) (by decide) (by decide) (by decide)

/-- C9: on refusal the source stream is never read at all (and the destination
receives no writes): the copy reader is only constructed after affirmation. -/
theorem flashy_C9 (chunks : List (List Nat)) (srcOk : Bool) (failAfter : Option Nat)
    (dest0 : List Nat) (input : String)
    (h1 : goResponse input ≠ "y") (h2 : goResponse input ≠ "Y") :
    (flashDevice chunks srcOk failAfter dest0 input).srcReads = 0 ∧
    (flashDevice chunks srcOk failAfter dest0 input).destCalls = 0 := by
  rw [flash_refused chunks srcOk failAfter dest0 input h1 h2]
  exact ⟨rfl, rfl⟩

/-- Witness for C9: refusal by a whitespace-only line. -/
theorem flashy_C9_witness :
    (flashDevice [[4, 5]] true none [] "  \n").srcReads = 0 ∧
    (flashDevice [[4, 5]] true none [] "  \n").destCalls = 0 :=
  flashy_C9 [[4, 5]] true none [] "  \n" (by decide) (by decide)

end Sflashy
